import Mathlib

/-!
Shallow embedding of the TfELM repository's `ELMLayer` (src/Layers/ELMLayer.py)
and theorems settling the specification claims about it.

Modelling conventions:
* TensorFlow float tensors are modelled as exact matrices over `ℚ`
  (`Matrix (Fin m) (Fin n) ℚ`); statements about values are exact where the
  code's are up to float tolerance.
* The pluggable elementwise activation function is a field `activation : ℚ → ℚ`
  of the layer state (the catalogue in Resources/ActivationFunction.py is out
  of scope per the spec).
* `tf.linalg.pinv` is a numeric library routine with no rational counterpart;
  `fit` is therefore parameterized by a function `pinv` standing for it, and
  theorems about `fit` hold for every such function.  Concrete witnesses
  instantiate it with `pinv1`, the true Moore-Penrose pseudoinverse for
  1-by-1 matrices.
* A Python method call on a `None` tensor raises; fallible operations are
  embedded with `Option` (`none` = the invalid-state failure).
* Python attribute mutation is embedded by state passing: `fit` returns the
  updated `LayerState`, `predictS`/`predict_probaS` return the (unchanged)
  state together with the result, mirroring the method bodies which contain
  no assignment to `self`.
-/

namespace TfELM

/-- Rational-valued matrix with dimensions in the type, modelling a float32
tensor of static shape. -/
abbrev Mat (m n : ℕ) : Type := Matrix (Fin m) (Fin n) ℚ

/-- Rational-valued vector of length `n`, modelling a rank-1 tensor. -/
abbrev Vec (n : ℕ) : Type := Fin n → ℚ

/-- A matrix together with its dimensions, modelling a Python attribute that
may hold tensors of different shapes over time (the `output` attribute is
written with shape (samples, outputs) by `fit` but with shape
(samples, neurons) by `calc_output`). -/
abbrev DynMat : Type := (p : ℕ × ℕ) × Mat p.1 p.2

/-- Packs a matrix with its dimensions. -/
def dynOf {m k : ℕ} (M : Mat m k) : DynMat := ⟨(m, k), M⟩

/-- Type of a beta optimizer's `optimize(beta, H, y)` method: it receives the
closed-form output weights, the feature map and the targets, and returns the
refined weights together with the per-iteration error history
(src/Layers/ELMLayer.py line 271). -/
abbrev BetaOptimizer (N n o : ℕ) : Type :=
  Mat N o → Mat n N → Mat n o → Mat N o × List ℚ

/-- State of an `ELMLayer` instance: one field per attribute assigned in
`ELMLayer.__init__` (src/Layers/ELMLayer.py lines 129-179).  `D` is the input
feature count, `N` the neuron count (`number_neurons`), `n` the training
sample count and `o` the output dimensionality; shapes that Python keeps in
the tensors live in the type parameters here.  Attributes holding `None`
before being computed are `Option` fields.  The `receptive_field_generator`
is modelled by its effect on the input weights (the spec for the Resources/
generators, absent from src/, says they sparsify `alpha` in place). -/
structure LayerState (D N n o : ℕ) where
  error_history : Option (List ℚ)
  feature_map : Option (Mat n N)
  name : String
  beta : Option (Mat N o)
  bias : Option (Vec N)
  alpha : Option (Mat D N)
  input : Option (Mat n D)
  output : Option DynMat
  act_params : Option (List (String × ℚ))
  beta_optimizer : Option (BetaOptimizer N n o)
  is_orthogonalized : Bool
  activation_name : String
  activation : ℚ → ℚ
  C : Option ℚ
  receptive_field_generator : Option (Mat D N → Mat D N)
  denoising : Option String
  denoising_param : Option ℚ
  constrained : Bool

/-- Elementwise application of the activation function to a matrix, modelling
`self.activation(H)` on a tensor. -/
def actMat {m k : ℕ} (f : ℚ → ℚ) (M : Mat m k) : Mat m k :=
  Matrix.of fun i j => f (M i j)

/-- The activated feature map `H = self.activation(tf.matmul(x, alpha) + bias)`
(src/Layers/ELMLayer.py lines 261-262 and 298-299); the bias vector is
broadcast across the rows. -/
def rawH {D N n : ℕ} (f : ℚ → ℚ) (alpha : Mat D N) (bias : Vec N) (x : Mat n D) :
    Mat n N :=
  actMat f (Matrix.of fun i j => (x * alpha) i j + bias j)

/-- Embedding of `tf.linalg.set_diag(H, tf.linalg.diag_part(H) + c)`
(src/Layers/ELMLayer.py line 265): adds `c` to every main-diagonal entry of a
possibly rectangular matrix and leaves all other entries unchanged. -/
def setDiagAdd {n N : ℕ} (H : Mat n N) (c : ℚ) : Mat n N :=
  Matrix.of fun i j => if (i : ℕ) = (j : ℕ) then H i j + c else H i j

/-- The input weights actually used by `fit`: when a receptive-field generator
is configured it sparsifies `alpha` (modelled from the spec: the Resources/
generator classes are not under src/; the spec says `generate_receptive_fields`
"mutates the layer's projection matrix in place"), otherwise `alpha` is used
as built. -/
def effAlpha {D N n o : ℕ} (s : LayerState D N n o) (a : Mat D N) : Mat D N :=
  match s.receptive_field_generator with
  | some rf => rf a
  | none => a

/-- The feature map that `fit` passes to the pseudoinverse solve
(src/Layers/ELMLayer.py lines 261-265): the activated map, with the
regularization constant added to the diagonal when `self.C is not None`
(the constructor default is `C=0.0`, so the addition normally runs with 0). -/
def fitFeatureMap {D N n o : ℕ} (s : LayerState D N n o) (a : Mat D N)
    (b : Vec N) (x : Mat n D) : Mat n N :=
  let H0 := rawH s.activation (effAlpha s a) b x
  match s.C with
  | some c => setDiagAdd H0 c
  | none => H0

/-- Embedding of `ELMLayer.fit` (src/Layers/ELMLayer.py lines 215-276),
parameterized by `pinv` standing for `tf.linalg.pinv`.  The `Option.bind`s on
`alpha` and `bias` model the exception raised by `tf.matmul`/broadcast when
the layer was never built.  Note on line 257 of the source: when
`self.constrained` is set, the code calls
`generate_contrainted_weights(x, y, self.number_neurons)` and discards the
returned value; the function receives no reference to the layer, so the call
has no effect on the state and contributes nothing to this embedding. -/
def ELMLayer.fit {D N n o : ℕ} (pinv : Mat n N → Mat N n) (s : LayerState D N n o)
    (x : Mat n D) (y : Mat n o) : Option (LayerState D N n o) :=
  s.alpha.bind fun a =>
    s.bias.bind fun b =>
      let alpha := effAlpha s a
      let H := fitFeatureMap s a b x
      let beta0 := pinv H * y
      match s.beta_optimizer with
      | none =>
          some { s with input := some x, alpha := some alpha, beta := some beta0,
                        feature_map := some H, output := some (dynOf (H * beta0)) }
      | some opt =>
          let r := opt beta0 H y
          some { s with input := some x, alpha := some alpha, beta := some r.1,
                        error_history := some r.2, feature_map := some H,
                        output := some (dynOf (H * r.1)) }

/-- Embedding of `ELMLayer.predict` (src/Layers/ELMLayer.py lines 278-301):
recomputes `H = f(x·alpha + bias)` and returns `H·beta`; the binds model the
exception raised when `alpha`, `bias` or `beta` is still `None`. -/
def ELMLayer.predict {D N n o m : ℕ} (s : LayerState D N n o) (x : Mat m D) :
    Option (Mat m o) :=
  s.alpha.bind fun a =>
    s.bias.bind fun b =>
      s.beta.bind fun beta =>
        some (rawH s.activation a b x * beta)

/-- State-passing form of `predict`: the method body (src/Layers/ELMLayer.py
lines 278-301) contains no assignment to `self`, so the state is returned
unchanged next to the result. -/
def ELMLayer.predictS {D N n o m : ℕ} (s : LayerState D N n o) (x : Mat m D) :
    LayerState D N n o × Option (Mat m o) :=
  (s, ELMLayer.predict s x)

/-- State-passing embedding of `ELMLayer.predict_proba` (src/Layers/ELMLayer.py
lines 303-324): `predict` followed by `tf.keras.activations.softmax`, which is
modelled by the parameter `softmax` (its exponentials have no rational
counterpart); the method contains no assignment to `self`. -/
def ELMLayer.predict_probaS {D N n o m : ℕ} (softmax : Mat m o → Mat m o)
    (s : LayerState D N n o) (x : Mat m D) :
    LayerState D N n o × Option (Mat m o) :=
  (s, (ELMLayer.predict s x).map softmax)

/-- Embedding of `ELMLayer.calc_output` (src/Layers/ELMLayer.py lines 326-341):
`out = self.activation(tf.matmul(x, self.beta, transpose_b=True))`, stored in
`self.output` and returned.  It uses neither `alpha` nor `bias`.  The bind
models the exception when `beta` is `None`. -/
def ELMLayer.calc_output {D N n o m : ℕ} (s : LayerState D N n o) (x : Mat m o) :
    Option (LayerState D N n o × Mat m N) :=
  s.beta.bind fun beta =>
    let out := actMat s.activation (x * beta.transpose)
    some ({ s with output := some (dynOf out) }, out)

/-- Result of `ELMLayer.count_params` (src/Layers/ELMLayer.py lines 367-383):
the returned dictionary with keys 'trainable', 'non_trainable', 'all'. -/
structure ParamCounts where
  trainable : ℕ
  non_trainable : ℕ
  all : ℕ
deriving DecidableEq

/-- Embedding of `ELMLayer.count_params`: trainable is the size of `beta`
(`beta.shape[0] * beta.shape[1]`, 0 when `None`), non-trainable is the size of
`alpha` plus the size of `bias` (0 when either is `None`); the shapes read off
the tensors in Python are carried by the type parameters here. -/
def ELMLayer.count_params {D N n o : ℕ} (s : LayerState D N n o) : ParamCounts :=
  let trainable : ℕ :=
    match s.beta with
    | none => 0
    | some _ => N * o
  let non_trainable : ℕ :=
    match s.alpha, s.bias with
    | some _, some _ => D * N + N
    | _, _ => 0
  ⟨trainable, non_trainable, trainable + non_trainable⟩

/-- Embedding of `ELMLayer.build` (src/Layers/ELMLayer.py lines 181-213) over
`ℚ`.  The draws of `tf.random_uniform_initializer(-1, 1)` for `alpha` and
`tf.random_uniform_initializer(0, 1)` for `bias` are passed in as `alphaDraw`
and `biasDraw`; the orthogonalization branch applies `gs` and `normb`, which
stand for `Resources.gram_schmidt.gram_schmidt` and division by `tf.norm`
(those run over floats; their real-valued model is `ELMLayer.buildR` below). -/
def ELMLayer.build {D N n o : ℕ} (gs : Mat D N → Mat D N) (normb : Vec N → Vec N)
    (alphaDraw : Mat D N) (biasDraw : Vec N) (s : LayerState D N n o) :
    LayerState D N n o :=
  if s.is_orthogonalized then
    { s with alpha := some (gs alphaDraw), bias := some (normb biasDraw) }
  else
    { s with alpha := some alphaDraw, bias := some biasDraw }

/-- The dictionary produced by `ELMLayer.to_dict` (src/Layers/ELMLayer.py
lines 385-425).  The code filters out `None`-valued entries; an `Option` field
being `none` models the key being omitted.  `name`, `number_neurons`,
`activation` and `is_orthogonalized` are never `None` in the code (a `False`
flag is kept by the filter), so they are plain fields. -/
structure LayerDict (D N o : ℕ) where
  name : String
  number_neurons : ℕ
  activation : String
  act_params : Option (List (String × ℚ))
  C : Option ℚ
  is_orthogonalized : Bool
  beta : Option (Mat N o)
  alpha : Option (Mat D N)
  bias : Option (Vec N)
  denoising : Option String
  denoising_param : Option ℚ

/-- Embedding of `ELMLayer.to_dict` for a layer without a receptive-field
generator (the generator's extra keys live in classes outside src/). -/
def ELMLayer.to_dict {D N n o : ℕ} (s : LayerState D N n o) : LayerDict D N o :=
  { name := "ELMLayer"
    number_neurons := N
    activation := s.activation_name
    act_params := s.act_params
    C := s.C
    is_orthogonalized := s.is_orthogonalized
    beta := s.beta
    alpha := s.alpha
    bias := s.bias
    denoising := s.denoising
    denoising_param := s.denoising_param }

/-- Embedding of `ELMLayer.load` (src/Layers/ELMLayer.py lines 427-460).  The
body executes `cls(attributes)`: the whole attribute dictionary is passed
positionally as the `number_neurons` argument and nothing is forwarded as
keyword parameters, so the constructor runs with every default — `beta`,
`alpha` and `bias` stay `None`, the activation falls back to the default
`'tanh'` (its numeric function is the parameter `defaultAct`), `C` to `0.0`,
and every optional strategy to `None`.  No serialized weight reaches the
reconstructed layer; the bogus `number_neurons` value (the dictionary itself)
is not representable in this typed state and is dropped. -/
def ELMLayer.load {D N o : ℕ} (Dl Nl nl ol : ℕ) (defaultAct : ℚ → ℚ)
    (attributes : LayerDict D N o) : LayerState Dl Nl nl ol :=
  { error_history := none
    feature_map := none
    name := "elm"
    beta := none
    bias := none
    alpha := none
    input := none
    output := none
    act_params := none
    beta_optimizer := none
    is_orthogonalized := false
    activation_name := "tanh"
    activation := defaultAct
    C := some 0
    receptive_field_generator := none
    denoising := none
    denoising_param := none
    constrained := false }

/-- A column of the input-weight matrix, or the bias, as a vector of `ℝ^k`:
the real-valued model used for the orthogonalization branch of `build`, whose
norms are irrational in general. -/
abbrev RVec (k : ℕ) : Type := EuclideanSpace ℝ (Fin k)

/-- The pair assigned by `build`: the input-weight matrix represented by its
columns (one vector of `ℝ^D` per neuron) and the bias vector. -/
structure BuildR (D N : ℕ) where
  alpha : Fin N → RVec D
  bias : RVec N

/-- Modelled from the spec: `Resources/gram_schmidt.py` is not under src/;
spec section 4.4 says "Gram-Schmidt over columns of the random matrix;
produces column-orthonormal projection".  Embedded as classical normalized
Gram-Schmidt over the columns, via Mathlib's `gramSchmidtNormed`. -/
noncomputable def gram_schmidt {D N : ℕ} (cols : Fin N → RVec D) : Fin N → RVec D :=
  letI : WellFoundedLT (Fin N) := inferInstance
  fun j => gramSchmidtNormed ℝ cols j

/-- Embedding of `self.bias / tf.norm(self.bias)` (src/Layers/ELMLayer.py
line 213). -/
noncomputable def normalizeBias {N : ℕ} (b : RVec N) : RVec N := ‖b‖⁻¹ • b

/-- Real-valued embedding of `ELMLayer.build` (src/Layers/ELMLayer.py lines
181-213): the uniform draws are passed in as `alphaDraw` (columns, drawn from
[-1,1] entrywise) and `biasDraw` (drawn from [0,1] entrywise); when
`is_orthogonalized` is set, `alpha` is replaced by its Gram-Schmidt
orthonormalization and `bias` is divided by its norm. -/
noncomputable def ELMLayer.buildR {D N : ℕ} (is_orthogonalized : Bool)
    (alphaDraw : Fin N → RVec D) (biasDraw : RVec N) : BuildR D N :=
  if is_orthogonalized then
    ⟨gram_schmidt alphaDraw, normalizeBias biasDraw⟩
  else
    ⟨alphaDraw, biasDraw⟩

/-- The identity activation (named `identity` in the activation catalogue),
used by the concrete witness layers. -/
def idQ : ℚ → ℚ := fun q => q

/-- True Moore-Penrose pseudoinverse of a 1-by-1 matrix, used to instantiate
the `pinv` parameter of `fit` in concrete witnesses. -/
def pinv1 : Mat 1 1 → Mat 1 1 :=
  fun H => Matrix.of fun _ _ => if H 0 0 = 0 then 0 else (H 0 0)⁻¹

/-- Concrete 1-by-1 input-weight matrix for witnesses. -/
def a1 : Mat 1 1 := !![1]

/-- Concrete bias vector for witnesses. -/
def b1 : Vec 1 := ![0]

/-- Concrete training input for witnesses. -/
def x1 : Mat 1 1 := !![1]

/-- Concrete training target for witnesses. -/
def y1 : Mat 1 1 := !![1]

/-- A built (but unfitted) one-neuron layer with identity activation and the
default regularization `C=0.0`, used as the base of the concrete witnesses. -/
def base1 : LayerState 1 1 1 1 :=
  { error_history := none
    feature_map := none
    name := "elm"
    beta := none
    bias := some b1
    alpha := some a1
    input := none
    output := none
    act_params := none
    beta_optimizer := none
    is_orthogonalized := false
    activation_name := "identity"
    activation := idQ
    C := some 0
    receptive_field_generator := none
    denoising := none
    denoising_param := none
    constrained := false }

/-- The base layer with non-zero regularization `C=1`. -/
def base1C : LayerState 1 1 1 1 := { base1 with C := some 1 }

/-- The base layer with constrained-weight generation requested. -/
def base1Con : LayerState 1 1 1 1 := { base1 with constrained := true }

/-- A fitted-looking layer: the base layer with output weights `beta` set. -/
def fitted1 : LayerState 1 1 1 1 := { base1 with beta := some !![(1 : ℚ) / 2] }

/-- A freshly constructed (never built) layer: the base layer with `alpha` and
`bias` cleared. -/
def unbuilt1 : LayerState 1 1 1 1 := { base1 with alpha := none, bias := none }

/-- Auxiliary: multiplying 1-by-1 matrices multiplies their entries. -/
theorem mul1 (a b : ℚ) : (!![a] : Mat 1 1) * !![b] = !![a * b] := by
  funext i j
  fin_cases i; fin_cases j
  simp [Matrix.mul_apply]

/-- Auxiliary: the raw activated feature map of the concrete witness layer. -/
theorem rawH_base1 : rawH idQ a1 b1 x1 = !![1] := by
  funext i j
  fin_cases i; fin_cases j
  simp [rawH, actMat, a1, b1, x1, idQ, Matrix.mul_apply]

/-- Auxiliary: adding 0 along the diagonal changes no entry. -/
theorem setDiagAdd_zero {n N : ℕ} (H : Mat n N) : setDiagAdd H 0 = H := by
  funext i j
  simp [setDiagAdd]

/-- Auxiliary: with regularization 0 (the constructor default) or None, the
feature map used by `fit` is the raw activated map. -/
theorem fitFeatureMap_eq_rawH {D N n o : ℕ} (s : LayerState D N n o) (a : Mat D N)
    (b : Vec N) (x : Mat n D) (hC : s.C = some 0 ∨ s.C = none) :
    fitFeatureMap s a b x = rawH s.activation (effAlpha s a) b x := by
  rcases hC with hC | hC <;> simp [fitFeatureMap, hC, setDiagAdd_zero]

/-- C10: `predict` and `predict_proba` leave every field of the layer
unchanged: the method bodies contain no assignment to `self`, so the state
returned by the state-passing embeddings equals the input state, in
particular on `alpha`, `bias`, `beta`, `feature_map`, `input`, `output` and
`error_history`. -/
theorem ELMLayer.predict_frame {D N n o m : ℕ} (s : LayerState D N n o) (x : Mat m D)
    (softmax : Mat m o → Mat m o) :
    (ELMLayer.predictS s x).1 = s ∧ (ELMLayer.predict_probaS softmax s x).1 = s ∧
    (ELMLayer.predictS s x).1.alpha = s.alpha ∧ (ELMLayer.predictS s x).1.bias = s.bias ∧
    (ELMLayer.predictS s x).1.beta = s.beta ∧
    (ELMLayer.predictS s x).1.feature_map = s.feature_map ∧
    (ELMLayer.predictS s x).1.input = s.input ∧
    (ELMLayer.predictS s x).1.output = s.output ∧
    (ELMLayer.predictS s x).1.error_history = s.error_history :=
  ⟨rfl, rfl, rfl, rfl, rfl, rfl, rfl, rfl, rfl⟩

/-- C8: calling `predict` on a layer whose output weights `beta` were never
computed fails with the invalid-state signal (`none`, the embedded exception)
instead of computing with null weights, and so does calling `fit` on a layer
whose input weights `alpha` were never built. -/
theorem ELMLayer.invalid_state_fails {D N n o m : ℕ} (s : LayerState D N n o)
    (x : Mat m D) (pinv : Mat n N → Mat N n) (xt : Mat n D) (y : Mat n o) :
    (s.beta = none → ELMLayer.predict s x = none) ∧
    (s.alpha = none → ELMLayer.fit pinv s xt y = none) := by
  constructor
  · intro hbeta
    unfold ELMLayer.predict
    rcases ha : s.alpha with _ | a
    · simp
    · rcases hb : s.bias with _ | b <;> simp [hbeta]
  · intro ha
    unfold ELMLayer.fit
    simp [ha]

/-- C8 witness: on the concrete never-built layer, `predict` and `fit` both
fail with `none`. -/
theorem ELMLayer.invalid_state_fails_witness :
    ELMLayer.predict unbuilt1 x1 = none ∧ ELMLayer.fit pinv1 unbuilt1 x1 y1 = none :=
  ⟨(ELMLayer.invalid_state_fails unbuilt1 x1 pinv1 x1 y1).1 rfl,
   (ELMLayer.invalid_state_fails unbuilt1 x1 pinv1 x1 y1).2 rfl⟩

/-- C4: during `fit`, the feature map handed to the pseudoinverse solve
carries the regularization constant added to exactly the diagonal entries:
when the stored `C` is 0 the map equals `f(x·alpha + bias)` unchanged, and
when `C = c` every diagonal entry is the raw entry plus `c` while every
off-diagonal entry is the raw entry. -/
theorem ELMLayer.fit_diag_regularization {D N n o : ℕ} (s : LayerState D N n o)
    (a : Mat D N) (b : Vec N) (x : Mat n D) :
    (s.C = some 0 → fitFeatureMap s a b x = rawH s.activation (effAlpha s a) b x) ∧
    (∀ c : ℚ, s.C = some c → ∀ i : Fin n, ∀ j : Fin N,
      (((i : ℕ) = (j : ℕ)) →
        fitFeatureMap s a b x i j = rawH s.activation (effAlpha s a) b x i j + c) ∧
      (((i : ℕ) ≠ (j : ℕ)) →
        fitFeatureMap s a b x i j = rawH s.activation (effAlpha s a) b x i j)) := by
  constructor
  · intro hC
    exact fitFeatureMap_eq_rawH s a b x (Or.inl hC)
  · intro c hC i j
    constructor
    · intro hij
      simp [fitFeatureMap, hC, setDiagAdd, hij]
    · intro hij
      simp [fitFeatureMap, hC, setDiagAdd, hij]

/-- C4 witness: on the concrete layer with `C = 1`, the (0,0) diagonal entry
of the solve-time feature map is the raw entry plus 1. -/
theorem ELMLayer.fit_diag_regularization_witness :
    base1C.C = some 1 ∧
    fitFeatureMap base1C a1 b1 x1 0 0 =
      rawH base1C.activation (effAlpha base1C a1) b1 x1 0 0 + 1 :=
  ⟨rfl, ((ELMLayer.fit_diag_regularization base1C a1 b1 x1).2 1 rfl 0 0).1 rfl⟩

/-- C2 evidence (code bug): with constrained-weight generation configured and
no receptive-field generator, `fit` leaves `alpha` exactly as built.  The
source (line 257) calls `generate_contrainted_weights(x, y, number_neurons)`
and discards the returned matrix — the function receives no reference to the
layer — so the supervised weights never replace the build-time ones, contrary
to the claim and to the method's own docstring. -/
theorem ELMLayer.fit_constrained_leaves_alpha {D N n o : ℕ} (pinv : Mat n N → Mat N n)
    (s : LayerState D N n o) (a : Mat D N) (b : Vec N) (x : Mat n D) (y : Mat n o)
    (hcon : s.constrained = true) (hrf : s.receptive_field_generator = none)
    (ha : s.alpha = some a) (hb : s.bias = some b) :
    ∃ t, ELMLayer.fit pinv s x y = some t ∧ t.alpha = some a := by
  have hea : effAlpha s a = a := by simp [effAlpha, hrf]
  unfold ELMLayer.fit
  rw [ha, hb]
  simp only [Option.some_bind]
  rcases hopt : s.beta_optimizer with _ | opt <;> exact ⟨_, rfl, by simp [hea]⟩

/-- C2 witness: on the concrete constrained layer, `fit` succeeds and returns
a state whose `alpha` is still the build-time matrix. -/
theorem ELMLayer.fit_constrained_leaves_alpha_witness :
    base1Con.constrained = true ∧
    ∃ t, ELMLayer.fit pinv1 base1Con x1 y1 = some t ∧ t.alpha = some a1 :=
  ⟨rfl, ELMLayer.fit_constrained_leaves_alpha pinv1 base1Con a1 b1 x1 y1 rfl rfl rfl rfl⟩

/-- C5: `fit` computes the closed-form output weights `pinv(H)·y`; without a
beta optimizer the stored `beta` is exactly that solution and `error_history`
keeps its prior value (it is never set), while with an optimizer the stored
`beta` is the optimizer's refined solution seeded with the closed-form beta
and `error_history` is the optimizer's error trace. -/
theorem ELMLayer.fit_beta_closed_form {D N n o : ℕ} (pinv : Mat n N → Mat N n)
    (s : LayerState D N n o) (a : Mat D N) (b : Vec N) (x : Mat n D) (y : Mat n o)
    (ha : s.alpha = some a) (hb : s.bias = some b) :
    ∃ t, ELMLayer.fit pinv s x y = some t ∧
      (s.beta_optimizer = none →
        t.beta = some (pinv (fitFeatureMap s a b x) * y) ∧
        t.error_history = s.error_history) ∧
      (∀ opt, s.beta_optimizer = some opt →
        t.beta = some (opt (pinv (fitFeatureMap s a b x) * y) (fitFeatureMap s a b x) y).1 ∧
        t.error_history =
          some (opt (pinv (fitFeatureMap s a b x) * y) (fitFeatureMap s a b x) y).2) := by
  unfold ELMLayer.fit
  rw [ha, hb]
  simp only [Option.some_bind]
  rcases hopt : s.beta_optimizer with _ | opt
  · exact ⟨_, rfl, fun _ => ⟨rfl, rfl⟩, fun opt' h => Option.noConfusion h⟩
  · refine ⟨_, rfl, fun h => Option.noConfusion h, fun opt' h => ?_⟩
    injection h with h'
    subst h'
    exact ⟨rfl, rfl⟩

/-- C5 witness: on the concrete optimizer-free layer, `fit` stores exactly the
closed-form solution and leaves the error history unset. -/
theorem ELMLayer.fit_beta_closed_form_witness :
    base1.alpha = some a1 ∧ base1.bias = some b1 ∧
    ∃ t, ELMLayer.fit pinv1 base1 x1 y1 = some t ∧
      (base1.beta_optimizer = none →
        t.beta = some (pinv1 (fitFeatureMap base1 a1 b1 x1) * y1) ∧
        t.error_history = base1.error_history) ∧
      (∀ opt, base1.beta_optimizer = some opt →
        t.beta = some (opt (pinv1 (fitFeatureMap base1 a1 b1 x1) * y1)
          (fitFeatureMap base1 a1 b1 x1) y1).1 ∧
        t.error_history = some (opt (pinv1 (fitFeatureMap base1 a1 b1 x1) * y1)
          (fitFeatureMap base1 a1 b1 x1) y1).2) :=
  ⟨rfl, rfl, ELMLayer.fit_beta_closed_form pinv1 base1 a1 b1 x1 y1 rfl rfl⟩

/-- C1 (amended): when the stored regularization is 0 (the constructor
default) or None, `predict` on the training input reproduces exactly the
`output` cached by `fit`: both paths compute `H = f(x·alpha + bias)` and then
`H·beta`, and the diagonal addition performed by `fit` is the identity. -/
theorem ELMLayer.predict_matches_fit_output {D N n o : ℕ}
    (pinv : Mat n N → Mat N n) (s : LayerState D N n o) (a : Mat D N) (b : Vec N)
    (x : Mat n D) (y : Mat n o)
    (hC : s.C = some 0 ∨ s.C = none) (ha : s.alpha = some a) (hb : s.bias = some b) :
    ∃ t P, ELMLayer.fit pinv s x y = some t ∧ ELMLayer.predict t x = some P ∧
      t.output = some (dynOf P) := by
  have hH := fitFeatureMap_eq_rawH s a b x hC
  unfold ELMLayer.fit
  rw [ha, hb]
  simp only [Option.some_bind]
  rcases hopt : s.beta_optimizer with _ | opt
  · refine ⟨_, rawH s.activation (effAlpha s a) b x * (pinv (fitFeatureMap s a b x) * y),
      rfl, rfl, ?_⟩
    rw [← hH]
  · refine ⟨_, rawH s.activation (effAlpha s a) b x *
      (opt (pinv (fitFeatureMap s a b x) * y) (fitFeatureMap s a b x) y).1, rfl, rfl, ?_⟩
    rw [← hH]

/-- C1 witness: on the concrete default-regularization layer, `predict` after
`fit` returns exactly the cached output. -/
theorem ELMLayer.predict_matches_fit_output_witness :
    (base1.C = some 0 ∨ base1.C = none) ∧
    ∃ t P, ELMLayer.fit pinv1 base1 x1 y1 = some t ∧ ELMLayer.predict t x1 = some P ∧
      t.output = some (dynOf P) :=
  ⟨Or.inl rfl,
   ELMLayer.predict_matches_fit_output pinv1 base1 a1 b1 x1 y1 (Or.inl rfl) rfl rfl⟩

/-- C1 counterexample: with non-zero regularization `C = 1` the two code paths
disagree on the same data.  On the concrete one-neuron identity layer the
feature map is `[[1]]`, `fit` shifts its diagonal to `[[2]]`, solves
`beta = [[1/2]]` and caches `output = [[2]]·[[1/2]] = [[1]]`, while `predict`
recomputes the unshifted `H = [[1]]` and returns `[[1/2]]`. -/
theorem ELMLayer.predict_fit_output_counterexample :
    ((ELMLayer.fit pinv1 base1C x1 y1).bind fun t => t.output) =
      some (dynOf !![(1 : ℚ)]) ∧
    ((ELMLayer.fit pinv1 base1C x1 y1).bind fun t =>
      (ELMLayer.predict t x1).map dynOf) = some (dynOf !![(1 : ℚ) / 2]) ∧
    (some (dynOf !![(1 : ℚ)]) : Option DynMat) ≠ some (dynOf !![(1 : ℚ) / 2]) := by
  have hH : fitFeatureMap base1C a1 b1 x1 = !![2] := by
    funext i j
    fin_cases i; fin_cases j
    simp [fitFeatureMap, rawH, actMat, setDiagAdd, effAlpha, base1C, base1, a1, b1, x1, idQ,
      Matrix.mul_apply]
    norm_num
  have hpinv : pinv1 !![(2 : ℚ)] = !![(1 : ℚ) / 2] := by
    funext i j
    fin_cases i; fin_cases j
    norm_num [pinv1]
  have hbeta : pinv1 (fitFeatureMap base1C a1 b1 x1) * y1 = !![(1 : ℚ) / 2] := by
    rw [hH, hpinv]
    show (!![(1 : ℚ) / 2] : Mat 1 1) * !![1] = !![(1 : ℚ) / 2]
    rw [mul1, mul_one]
  have hfit : ELMLayer.fit pinv1 base1C x1 y1 = some
      { base1C with
        input := some x1
        alpha := some a1
        beta := some (pinv1 (fitFeatureMap base1C a1 b1 x1) * y1)
        feature_map := some (fitFeatureMap base1C a1 b1 x1)
        output := some (dynOf (fitFeatureMap base1C a1 b1 x1 *
          (pinv1 (fitFeatureMap base1C a1 b1 x1) * y1))) } := rfl
  refine ⟨?_, ?_, ?_⟩
  · rw [hfit]
    simp only [Option.some_bind]
    show some (dynOf (fitFeatureMap base1C a1 b1 x1 *
      (pinv1 (fitFeatureMap base1C a1 b1 x1) * y1))) = some (dynOf !![(1 : ℚ)])
    rw [hbeta, hH, mul1]
    norm_num
  · rw [hfit]
    simp only [Option.some_bind]
    show some (dynOf (rawH idQ a1 b1 x1 *
      (pinv1 (fitFeatureMap base1C a1 b1 x1) * y1))) = some (dynOf !![(1 : ℚ) / 2])
    rw [hbeta, rawH_base1, mul1, one_mul]
  · intro h
    simp only [Option.some.injEq, dynOf] at h
    rw [Sigma.mk.inj_iff] at h
    obtain ⟨-, h2⟩ := h
    rw [heq_eq_eq] at h2
    have h00 := congrFun (congrFun h2 0) 0
    simp at h00

/-- Auxiliary: a successful `fit` returns a state whose `alpha`, `bias`,
`beta` and `feature_map` are populated as the source populates them. -/
theorem fit_eq_some {D N n o : ℕ} (pinv : Mat n N → Mat N n) (s : LayerState D N n o)
    (a : Mat D N) (b : Vec N) (x : Mat n D) (y : Mat n o)
    (ha : s.alpha = some a) (hb : s.bias = some b) :
    ∃ t, ELMLayer.fit pinv s x y = some t ∧
      t.alpha = some (effAlpha s a) ∧ t.bias = some b ∧
      (∃ β, t.beta = some β) ∧ t.feature_map = some (fitFeatureMap s a b x) := by
  unfold ELMLayer.fit
  rw [ha, hb]
  simp only [Option.some_bind]
  rcases hopt : s.beta_optimizer with _ | opt
  · exact ⟨_, rfl, rfl, rfl, ⟨_, rfl⟩, rfl⟩
  · exact ⟨_, rfl, rfl, rfl, ⟨_, rfl⟩, rfl⟩

/-- Auxiliary: both branches of `build` populate `alpha` and `bias` and leave
`beta` alone. -/
theorem build_fields {D N n o : ℕ} (gs : Mat D N → Mat D N) (normb : Vec N → Vec N)
    (alphaDraw : Mat D N) (biasDraw : Vec N) (s : LayerState D N n o) :
    (∃ a, (ELMLayer.build gs normb alphaDraw biasDraw s).alpha = some a) ∧
    (∃ b, (ELMLayer.build gs normb alphaDraw biasDraw s).bias = some b) ∧
    (ELMLayer.build gs normb alphaDraw biasDraw s).beta = s.beta ∧
    (ELMLayer.build gs normb alphaDraw biasDraw s).beta_optimizer = s.beta_optimizer := by
  unfold ELMLayer.build
  rcases horth : s.is_orthogonalized <;> simp

/-- Auxiliary: the parameter counts of a fully populated state. -/
theorem count_params_of_some {D N n o : ℕ} (s : LayerState D N n o)
    (hbeta : ∃ β, s.beta = some β) (ha : ∃ a, s.alpha = some a)
    (hb : ∃ b, s.bias = some b) :
    ELMLayer.count_params s = ⟨N * o, D * N + N, N * o + (D * N + N)⟩ := by
  obtain ⟨β, hbeta⟩ := hbeta
  obtain ⟨a, ha⟩ := ha
  obtain ⟨b, hb⟩ := hb
  simp [ELMLayer.count_params, hbeta, ha, hb]

/-- Auxiliary: the parameter counts of a built but unfitted state. -/
theorem count_params_built {D N n o : ℕ} (s : LayerState D N n o)
    (hbeta : s.beta = none) (ha : ∃ a, s.alpha = some a) (hb : ∃ b, s.bias = some b) :
    ELMLayer.count_params s = ⟨0, D * N + N, D * N + N⟩ := by
  obtain ⟨a, ha⟩ := ha
  obtain ⟨b, hb⟩ := hb
  simp [ELMLayer.count_params, hbeta, ha, hb]

/-- C7: parameter counting across the lifecycle.  Before `build`, with `beta`
and `alpha` unset, every count is 0; after `build` the non-trainable count is
D·N + N (input weights plus bias) and the trainable count is 0; after `fit`
the trainable count is N·o (the output-weight matrix), and `all` is always
the sum of the two. -/
theorem ELMLayer.count_params_phases {D N n o : ℕ} (s : LayerState D N n o)
    (gs : Mat D N → Mat D N) (normb : Vec N → Vec N) (alphaDraw : Mat D N)
    (biasDraw : Vec N) (pinv : Mat n N → Mat N n) (x : Mat n D) (y : Mat n o)
    (hbeta : s.beta = none) (halpha : s.alpha = none) :
    ELMLayer.count_params s = ⟨0, 0, 0⟩ ∧
    ELMLayer.count_params (ELMLayer.build gs normb alphaDraw biasDraw s) =
      ⟨0, D * N + N, D * N + N⟩ ∧
    ∃ t, ELMLayer.fit pinv (ELMLayer.build gs normb alphaDraw biasDraw s) x y = some t ∧
      ELMLayer.count_params t = ⟨N * o, D * N + N, N * o + (D * N + N)⟩ := by
  obtain ⟨⟨aB, haB⟩, ⟨bB, hbB⟩, hbetaB, -⟩ :=
    build_fields gs normb alphaDraw biasDraw s
  refine ⟨?_, ?_, ?_⟩
  · simp [ELMLayer.count_params, hbeta, halpha]
  · exact count_params_built _ (hbetaB.trans hbeta) ⟨aB, haB⟩ ⟨bB, hbB⟩
  · obtain ⟨t, hfit, htA, htB, htβ, -⟩ :=
      fit_eq_some pinv _ aB bB x y haB hbB
    exact ⟨t, hfit, count_params_of_some t htβ ⟨_, htA⟩ ⟨_, htB⟩⟩

/-- C7 witness: on the concrete never-built layer, the three lifecycle counts
come out as 0, D·N + N and N·o plus D·N + N. -/
theorem ELMLayer.count_params_phases_witness :
    unbuilt1.beta = none ∧ unbuilt1.alpha = none ∧
    ELMLayer.count_params unbuilt1 = ⟨0, 0, 0⟩ ∧
    ELMLayer.count_params (ELMLayer.build id id a1 b1 unbuilt1) = ⟨0, 1 * 1 + 1, 1 * 1 + 1⟩ ∧
    ∃ t, ELMLayer.fit pinv1 (ELMLayer.build id id a1 b1 unbuilt1) x1 y1 = some t ∧
      ELMLayer.count_params t = ⟨1 * 1, 1 * 1 + 1, 1 * 1 + (1 * 1 + 1)⟩ := by
  obtain ⟨h1, h2, h3⟩ :=
    ELMLayer.count_params_phases unbuilt1 id id a1 b1 pinv1 x1 y1 rfl rfl
  exact ⟨rfl, rfl, h1, h2, h3⟩

/-- C9: on a fitted layer, `calc_output(x)` returns the activation applied to
`x` times the transpose of the output weights, `f(x·betaᵀ)`, overwrites the
layer's `output` field with that matrix, and uses neither `alpha` nor `bias`
(replacing them changes nothing about the returned matrix). -/
theorem ELMLayer.calc_output_spec {D N n o m : ℕ} (s : LayerState D N n o)
    (x : Mat m o) (beta : Mat N o) (hbeta : s.beta = some beta) :
    ELMLayer.calc_output s x =
      some ({ s with output := some (dynOf (actMat s.activation (x * beta.transpose))) },
            actMat s.activation (x * beta.transpose)) ∧
    (∀ oa : Option (Mat D N), ∀ ob : Option (Vec N),
      (ELMLayer.calc_output { s with alpha := oa, bias := ob } x).map Prod.snd =
        (ELMLayer.calc_output s x).map Prod.snd) := by
  constructor
  · unfold ELMLayer.calc_output
    rw [hbeta]
    rfl
  · intro oa ob
    simp only [ELMLayer.calc_output, hbeta]
    rfl

/-- C9 witness: on the concrete fitted layer, `calc_output` returns the
activated product with the transposed output weights and caches it. -/
theorem ELMLayer.calc_output_spec_witness :
    fitted1.beta = some !![(1 : ℚ) / 2] ∧
    ELMLayer.calc_output fitted1 x1 =
      some ({ fitted1 with output := some (dynOf (actMat fitted1.activation
               (x1 * (!![(1 : ℚ) / 2]).transpose))) },
            actMat fitted1.activation (x1 * (!![(1 : ℚ) / 2]).transpose)) :=
  ⟨rfl, (ELMLayer.calc_output_spec fitted1 x1 !![(1 : ℚ) / 2] rfl).1⟩

/-- C3 evidence (code bug): serializing the concrete fitted layer with
`to_dict` keeps its output weights, but `load` of that very dictionary
returns a layer whose `beta`, `alpha` and `bias` are all `None` — the source
passes the whole dictionary positionally as `number_neurons` instead of
expanding it into keyword arguments — so `predict` on the reconstructed layer
fails while the original predicts `[[1/2]]`; the claimed round-trip equality
of predictions is impossible. -/
theorem ELMLayer.load_to_dict_drops_weights :
    (ELMLayer.to_dict fitted1).beta = some !![(1 : ℚ) / 2] ∧
    (ELMLayer.load 1 1 1 1 idQ (ELMLayer.to_dict fitted1)).beta = none ∧
    (ELMLayer.load 1 1 1 1 idQ (ELMLayer.to_dict fitted1)).alpha = none ∧
    ELMLayer.predict (ELMLayer.load 1 1 1 1 idQ (ELMLayer.to_dict fitted1)) x1 = none ∧
    ELMLayer.predict fitted1 x1 = some !![(1 : ℚ) / 2] := by
  refine ⟨rfl, rfl, rfl, rfl, ?_⟩
  show some (rawH idQ a1 b1 x1 * !![(1 : ℚ) / 2]) = some !![(1 : ℚ) / 2]
  rw [rawH_base1, mul1, one_mul]

/-- C6 (amended): when orthogonalization is enabled and the drawn columns are
linearly independent (which forces D at least the neuron count and holds
almost surely for the uniform draw), `build` produces pairwise-orthogonal
unit-norm columns, and when the drawn bias is non-zero it is normalized to
unit norm; without orthogonalization `build` stores the uniform draws
unchanged (so the entries stay in [-1,1] and [0,1] respectively). -/
theorem ELMLayer.buildR_orthonormal {D N : ℕ} (alphaDraw : Fin N → RVec D)
    (biasDraw : RVec N) (hLI : LinearIndependent ℝ alphaDraw) (hbias : biasDraw ≠ 0) :
    (∀ i j : Fin N, i ≠ j →
      @inner ℝ (RVec D) _ ((ELMLayer.buildR true alphaDraw biasDraw).alpha i)
        ((ELMLayer.buildR true alphaDraw biasDraw).alpha j) = 0) ∧
    (∀ i : Fin N, ‖(ELMLayer.buildR true alphaDraw biasDraw).alpha i‖ = 1) ∧
    ‖(ELMLayer.buildR true alphaDraw biasDraw).bias‖ = 1 ∧
    (ELMLayer.buildR false alphaDraw biasDraw).alpha = alphaDraw ∧
    (ELMLayer.buildR false alphaDraw biasDraw).bias = biasDraw := by
  letI : WellFoundedLT (Fin N) := inferInstance
  have hON : Orthonormal ℝ (gramSchmidtNormed ℝ alphaDraw) := gramSchmidt_orthonormal hLI
  refine ⟨?_, ?_, ?_, rfl, rfl⟩
  · intro i j hij
    exact hON.2 hij
  · intro i
    exact hON.1 i
  · show ‖normalizeBias biasDraw‖ = 1
    unfold normalizeBias
    rw [norm_smul, norm_inv, norm_norm, inv_mul_cancel₀ (norm_ne_zero_iff.mpr hbias)]

/-- C6 witness: for the concrete independent one-column draw, the
orthogonalized column has unit norm. -/
theorem ELMLayer.buildR_orthonormal_witness :
    LinearIndependent ℝ (fun _ : Fin 1 => EuclideanSpace.single (0 : Fin 1) (1 : ℝ)) ∧
    EuclideanSpace.single (0 : Fin 1) (1 : ℝ) ≠ 0 ∧
    ‖(ELMLayer.buildR true (fun _ : Fin 1 => EuclideanSpace.single (0 : Fin 1) (1 : ℝ))
        (EuclideanSpace.single (0 : Fin 1) (1 : ℝ))).alpha 0‖ = 1 := by
  have hv : EuclideanSpace.single (0 : Fin 1) (1 : ℝ) ≠ 0 := by
    intro h
    have hn : ‖EuclideanSpace.single (0 : Fin 1) (1 : ℝ)‖ = 1 := by
      rw [EuclideanSpace.norm_single]
      exact norm_one
    rw [h, norm_zero] at hn
    exact zero_ne_one hn
  have hLI : LinearIndependent ℝ (fun _ : Fin 1 => EuclideanSpace.single (0 : Fin 1) (1 : ℝ)) :=
    (linearIndependent_unique_iff _).mpr hv
  exact ⟨hLI, hv, (ELMLayer.buildR_orthonormal _ _ hLI hv).2.1 0⟩

/-- C6 counterexample: the all-zero draw is a legal value of the uniform
initializers (every entry of the alpha draw lies in [-1,1] and of the bias
draw in [0,1]), its columns are not linearly independent, and on it the
orthogonalization branch of `build` produces a zero column of norm 0 — not
unit norm under any tolerance — and a zero normalized bias. -/
theorem ELMLayer.buildR_zero_draw_counterexample :
    (ELMLayer.buildR true (fun _ : Fin 1 => (0 : RVec 1)) (0 : RVec 1)).alpha 0 = 0 ∧
    ‖(ELMLayer.buildR true (fun _ : Fin 1 => (0 : RVec 1)) (0 : RVec 1)).alpha 0‖ ≠ 1 ∧
    ‖(ELMLayer.buildR true (fun _ : Fin 1 => (0 : RVec 1)) (0 : RVec 1)).bias‖ ≠ 1 := by
  letI : WellFoundedLT (Fin 1) := inferInstance
  have hg : gramSchmidt ℝ (fun _ : Fin 1 => (0 : RVec 1)) 0 = 0 :=
    gramSchmidt_zero ℝ (fun _ : Fin 1 => (0 : RVec 1))
  have halpha :
      (ELMLayer.buildR true (fun _ : Fin 1 => (0 : RVec 1)) (0 : RVec 1)).alpha 0 = 0 := by
    show gram_schmidt (fun _ : Fin 1 => (0 : RVec 1)) 0 = 0
    unfold gram_schmidt gramSchmidtNormed
    rw [hg]
    exact smul_zero _
  have hbias :
      (ELMLayer.buildR true (fun _ : Fin 1 => (0 : RVec 1)) (0 : RVec 1)).bias = 0 := by
    show normalizeBias (0 : RVec 1) = 0
    unfold normalizeBias
    exact smul_zero _
  refine ⟨halpha, ?_, ?_⟩
  · rw [halpha, norm_zero]
    exact zero_ne_one
  · rw [hbias, norm_zero]
    exact zero_ne_one

end TfELM
